import Mathlib

/-!
Verification of the solar-suitability raster pipeline
(`script/solar_suitability.py`).

The script drives a GIS library; the numeric essence of each stage is
embedded here. Raster values are rationals, NoData cells are `none`.
Breakpoint tables, weights and the sampling rule are taken directly from
the source; the semantics the source delegates to the GIS/numeric
library (reclassification boundary rules, percentile interpolation,
NoData propagation, zone extraction, the error taxonomy) are modelled
from the specification, as marked on each definition.
-/

namespace SolarSuit

/-- A raster: immutable header plus row-major cell values; `none` is NoData. -/
structure RasterGrid where
  width : ℕ
  height : ℕ
  cellSize : ℚ
  cells : List (Option ℚ)
deriving Repr, DecidableEq

/-- The value at flat (row-major) index `i`; out-of-bounds reads are NoData. -/
def cellAt (g : RasterGrid) (i : ℕ) : Option ℚ :=
  g.cells.getD i none

/-- A breakpoint interval `(lo, hi, score)`. -/
abbrev RangeEntry : Type := ℚ × ℚ × ℕ

/-- Errors of the pipeline core.
Modelled from the spec: the error taxonomy (`OutOfRangeError` carrying the
offending value and its cell coordinates, `EmptySampleError`,
`ConfigurationError`, `GridMismatchError`) is absent from the script, which
delegates failure behaviour to the GIS library. -/
inductive PipelineError where
  | outOfRange (v : ℚ) (row col : ℕ)
  | emptySample
  | configuration
  | gridMismatch
deriving Repr, DecidableEq

/-- Modelled from the spec: the numeric semantics of the GIS `Reclassify`
call with a `RemapRange` table, absent from the repository. Intervals are
half-open, lower-inclusive/upper-exclusive; the final interval of the table
is closed at both ends. A value matched by no interval yields `none`
(out of range). -/
def remapLookup : List RangeEntry → ℚ → Option ℕ
  | [], _ => none
  | [r], v => if r.1 ≤ v ∧ v ≤ r.2.1 then some r.2.2 else none
  | r :: s :: rest, v =>
      if r.1 ≤ v ∧ v < r.2.1 then some r.2.2 else remapLookup (s :: rest) v

/-- The fixed slope table of `calculate_slope`:
`[0,5]→5, [5,10]→4, [10,15]→3, [15,20]→2, [20,90]→1`. -/
def slopeTable : List RangeEntry :=
  [(0, 5, 5), (5, 10, 4), (10, 15, 3), (15, 20, 2), (20, 90, 1)]

/-- Reclassify the cell list, tracking the flat index `i` (width `w` turns
it into `(row, col) = (i / w, i % w)`). NoData passes through; a valid value
with no matching interval aborts with `OutOfRangeError` naming the value and
its coordinates (modelled from the spec, see `PipelineError`). -/
def reclassifyCells (t : List RangeEntry) (w : ℕ) :
    ℕ → List (Option ℚ) → Except PipelineError (List (Option ℚ))
  | _, [] => .ok []
  | i, none :: rest =>
      (reclassifyCells t w (i + 1) rest).map (fun out => none :: out)
  | i, some v :: rest =>
      match remapLookup t v with
      | some s => (reclassifyCells t w (i + 1) rest).map
          (fun out => some (s : ℚ) :: out)
      | none => .error (.outOfRange v (i / w) (i % w))

/-- Reclassification of a whole raster against a breakpoint table. -/
def reclassify (g : RasterGrid) (t : List RangeEntry) :
    Except PipelineError RasterGrid :=
  (reclassifyCells t g.width 0 g.cells).map
    (fun out => { g with cells := out })

/-- The sample of `calculate_solar_radiation`: the array filter
`solar_array[solar_array > 0]` keeps exactly the valid cells with a
strictly positive value. -/
def validValues (g : RasterGrid) : List ℚ :=
  (g.cells.filterMap id).filter (fun v => 0 < v)

/-- The sample sorted ascending (the order statistics). -/
def sortedSample (xs : List ℚ) : List ℚ :=
  List.insertionSort (fun a b => a ≤ b) xs

/-- The fractional rank of percentage `q` in a sample of size `n`:
`q / 100 * (n - 1)`. -/
def percRank (n : ℕ) (q : ℚ) : ℚ :=
  q / 100 * ((n : ℚ) - 1)

/-- Linear interpolation of the sorted sample `s` at fractional rank
`rank`, between the order statistics at `⌊rank⌋` and `⌊rank⌋ + 1`. -/
def interpAt (s : List ℚ) (rank : ℚ) : ℚ :=
  s.getD (⌊rank⌋).toNat 0 +
    (rank - ((⌊rank⌋).toNat : ℚ)) *
      (s.getD ((⌊rank⌋).toNat + 1) (s.getD (⌊rank⌋).toNat 0) -
        s.getD (⌊rank⌋).toNat 0)

/-- Modelled from the spec: the numeric library's percentile with standard
linear interpolation between order statistics, absent from the repository.
For a sample of size `n` and percentage `q`, the rank is `q / 100 * (n - 1)`;
the result interpolates between the order statistics bracketing the rank. -/
def percentile (xs : List ℚ) (q : ℚ) : ℚ :=
  if (sortedSample xs).length = 0 then 0
  else interpAt (sortedSample xs) (percRank (sortedSample xs).length q)

/-- The quantile fractions of `calculate_solar_radiation`:
`[0, 0.2, 0.4, 0.6, 0.8, 1.0]`. -/
def solarQuantiles : List ℚ :=
  [0, 2/10, 4/10, 6/10, 8/10, 1]

/-- The breakpoints `np.percentile(valid_values, q * 100)` for each
quantile fraction `q`. -/
def solarBreaks (g : RasterGrid) : List ℚ :=
  solarQuantiles.map (fun q => percentile (validValues g) (q * 100))

/-- The remap table built from consecutive breakpoint pairs with scores
`1..5` ascending. -/
def solarTable (g : RasterGrid) : List RangeEntry :=
  let b := solarBreaks g
  [(b.getD 0 0, b.getD 1 0, 1),
   (b.getD 1 0, b.getD 2 0, 2),
   (b.getD 2 0, b.getD 3 0, 3),
   (b.getD 3 0, b.getD 4 0, 4),
   (b.getD 4 0, b.getD 5 0, 5)]

/-- Quantile classification of the solar raster. The empty-sample guard is
modelled from the spec: an empty working sample fails with
`EmptySampleError` instead of computing breakpoints. -/
def calculate_solar_radiation (g : RasterGrid) :
    Except PipelineError RasterGrid :=
  if validValues g = [] then .error .emptySample
  else reclassify g (solarTable g)

/-- A second definition of the breakpoints following the spec's words:
`n_classes + 1` breakpoints at percentiles `0, 100/n, 200/n, …, 100` of the
sample, using linear interpolation between order statistics. -/
def specQuantileBreakpoints (n : ℕ) (sample : List ℚ) : List ℚ :=
  (List.range (n + 1)).map (fun i => percentile sample (100 * (i : ℚ) / (n : ℚ)))

/-- The per-cell weighted sum of `calculate_suitability`
(`0.3 * slope + 0.2 * aspect + 0.4 * solar + 0.1 * distance`); NoData
propagation of the map-algebra operators is modelled from the spec: a cell
is NoData in the output iff some input is NoData there. -/
def weightedCell (a b c d : Option ℚ) : Option ℚ :=
  match a, b, c, d with
  | some va, some vb, some vc, some vd =>
      some (3/10 * va + 2/10 * vb + 4/10 * vc + 1/10 * vd)
  | _, _, _, _ => none

/-- Cellwise weighted combination of the four score-cell lists. -/
def weightedCells :
    List (Option ℚ) → List (Option ℚ) → List (Option ℚ) → List (Option ℚ) →
    List (Option ℚ)
  | a :: as, b :: bs, c :: cs, d :: ds =>
      weightedCell a b c d :: weightedCells as bs cs ds
  | _, _, _, _ => []

/-- The weighted overlay of the four criterion score rasters with the fixed
weights `slope 0.3, aspect 0.2, solar 0.4, distance 0.1` of the source. -/
def calculate_suitability (slope aspect solar dist : RasterGrid) :
    RasterGrid :=
  { slope with cells := weightedCells slope.cells aspect.cells solar.cells dist.cells }

/-- Sum of the weight values of a weight mapping. -/
def weightSum (ws : List (String × ℚ)) : ℚ :=
  (ws.map Prod.snd).sum

/-- The weight keys are exactly the score-raster keys (mutual containment). -/
def keysMatch (scores : List (String × RasterGrid)) (ws : List (String × ℚ)) :
    Bool :=
  scores.all (fun p => ws.any (fun q => q.1 = p.1)) &&
    ws.all (fun q => scores.any (fun p => p.1 = q.1))

/-- Accumulate one weighted raster into the running per-cell sums;
a NoData input cell makes the output cell NoData. -/
def accumCells (acc : List (Option ℚ)) (w : ℚ) (cs : List (Option ℚ)) :
    List (Option ℚ) :=
  List.zipWith
    (fun a c =>
      match a, c with
      | some s, some v => some (s + w * v)
      | _, _ => none)
    acc cs

/-- Modelled from the spec: the general weighted overlay
`overlay(scores, weights)`. The configuration checks (weight keys exactly
the score keys; weights summing to 1 within `1e-6`) run before any raster
work; violation fails with `ConfigurationError` and the weights are never
renormalized. Aligned inputs are then combined cellwise, NoData in any
input making the cell NoData. -/
def overlay (scores : List (String × RasterGrid))
    (ws : List (String × ℚ)) : Except PipelineError RasterGrid :=
  if keysMatch scores ws = false then .error .configuration
  else if ¬ |weightSum ws - 1| ≤ 1/1000000 then .error .configuration
  else
    match scores with
    | [] => .error .configuration
    | (_, g0) :: _ =>
      if scores.all (fun p =>
          p.2.width = g0.width ∧ p.2.height = g0.height ∧
          p.2.cellSize = g0.cellSize) = false then .error .gridMismatch
      else
        let start : List (Option ℚ) := List.replicate g0.cells.length (some 0)
        let out := scores.foldl
          (fun acc p =>
            accumCells acc (((ws.find? (fun q => q.1 = p.1)).map Prod.snd).getD 0)
              p.2.cells)
          start
        .ok { g0 with cells := out }

/-- A cell qualifies for zone extraction: valid and at least `t`. -/
def qualifies (g : RasterGrid) (t : ℚ) (i : ℕ) : Bool :=
  match cellAt g i with
  | some v => t ≤ v
  | none => false

/-- 4-adjacency of flat row-major indices on a grid of width `w`:
horizontal neighbours share a row, vertical neighbours differ by `w`. -/
def adjacent (w : ℕ) (i j : ℕ) : Bool :=
  (i / w = j / w && (i + 1 = j || j + 1 = i)) ||
    (i % w = j % w && (i + w = j || j + w = i))

/-- One saturation step of component discovery: add every index of `univ`
that qualifies, is not yet visited, and is adjacent to a visited index. -/
def grow (adjB : ℕ → ℕ → Bool) (qual : ℕ → Bool) (univ : List ℕ)
    (vis : List ℕ) : List ℕ :=
  vis ++ univ.filter
    (fun j => qual j && decide (j ∉ vis) && vis.any (fun p => adjB p j))

/-- Iterated saturation with explicit fuel. -/
def growN (adjB : ℕ → ℕ → Bool) (qual : ℕ → Bool) (univ : List ℕ) :
    ℕ → List ℕ → List ℕ
  | 0, vis => vis
  | fuel + 1, vis => growN adjB qual univ fuel (grow adjB qual univ vis)

/-- The connected component of qualifying cells containing `start`:
saturation run for `univ.length` steps, enough to reach a fixed point. -/
def component (adjB : ℕ → ℕ → Bool) (qual : ℕ → Bool) (univ : List ℕ)
    (start : ℕ) : List ℕ :=
  growN adjB qual univ univ.length [start]

/-- Scan the indices in row-major order; each unvisited qualifying index
starts a new region, its whole component is emitted and marked visited.
Regions therefore come out ascending by the first (canonical) cell index. -/
def zonesLoop (adjB : ℕ → ℕ → Bool) (qual : ℕ → Bool) (univ : List ℕ) :
    List ℕ → List ℕ → List (List ℕ)
  | [], _ => []
  | i :: rest, vis =>
      if qual i && decide (i ∉ vis) then
        component adjB qual univ i ::
          zonesLoop adjB qual univ rest (vis ++ component adjB qual univ i)
      else
        zonesLoop adjB qual univ rest vis

/-- Area of a region in hectares: `cell_count * cell_size^2 / 10000`. -/
def regionArea (g : RasterGrid) (region : List ℕ) : ℚ :=
  (region.length : ℚ) * g.cellSize ^ 2 / 10000

/-- Modelled from the spec: `extract_zones` (the script's
`extract_best_zones` with its threshold and minimum area as parameters,
the region labelling delegated to the GIS library). Threshold the surface,
label 4-connected components of qualifying cells in canonical row-major
order, and keep the regions of at least `min_area_ha` hectares. -/
def extract_zones (g : RasterGrid) (threshold min_area_ha : ℚ) :
    List (List ℕ) :=
  let univ := List.range g.cells.length
  (zonesLoop (adjacent g.width) (qualifies g threshold) univ univ []).filter
    (fun region => min_area_ha ≤ regionArea g region)

/-- Intervals are chained: each upper bound is the next lower bound. -/
def ChainedTable : List RangeEntry → Prop
  | [] => True
  | [_] => True
  | r :: s :: rest => r.2.1 = s.1 ∧ ChainedTable (s :: rest)

/-- Each interval is nonempty: its lower bound is below its upper bound. -/
def ProperTable : List RangeEntry → Prop
  | [] => True
  | r :: rest => r.1 < r.2.1 ∧ ProperTable rest

/-! ### Properties of reclassification -/

theorem properTable_get (t : List RangeEntry) (hpr : ProperTable t) :
    ∀ (k : ℕ) (hk : k < t.length), (t.get ⟨k, hk⟩).1 < (t.get ⟨k, hk⟩).2.1 := by
  induction t with
  | nil => intro k hk; simp at hk
  | cons r rest ih =>
    intro k hk
    cases k with
    | zero => simpa using hpr.1
    | succ j =>
      have hj : j < rest.length := by simpa using Nat.lt_of_succ_lt_succ hk
      simpa using ih hpr.2 j hj

theorem chained_head_le (t : List RangeEntry) (hch : ChainedTable t)
    (hpr : ProperTable t) :
    ∀ (k : ℕ) (hk : k < t.length) (hne : t ≠ []),
      (t.head hne).1 ≤ (t.get ⟨k, hk⟩).1 := by
  induction t with
  | nil => intro k hk; simp at hk
  | cons r rest ih =>
    intro k hk hne
    cases rest with
    | nil =>
      have hk0 : k = 0 := by
        have : k < 1 := by simpa using hk
        omega
      subst hk0; simp
    | cons s rest2 =>
      cases k with
      | zero => simp
      | succ j =>
        have hj : j < (s :: rest2).length := by
          simpa using Nat.lt_of_succ_lt_succ hk
        have h2 := ih hch.2 hpr.2 j hj (by simp)
        have h1 : r.1 ≤ s.1 := by
          have := hpr.1
          rw [hch.1] at this
          exact le_of_lt this
        have hhead : ((s :: rest2).head (by simp)).1 = s.1 := rfl
        rw [hhead] at h2
        simpa using le_trans h1 h2

theorem head_le_getLast_lo (t : List RangeEntry) (hch : ChainedTable t)
    (hpr : ProperTable t) (hne : t ≠ []) :
    (t.head hne).1 ≤ (t.getLast hne).1 := by
  induction t with
  | nil => exact absurd rfl hne
  | cons r rest ih =>
    cases rest with
    | nil => simp [List.getLast]
    | cons s rest2 =>
      have hne2 : s :: rest2 ≠ [] := by simp
      have h2 := ih hch.2 hpr.2 hne2
      have h1 : r.1 ≤ s.1 := by
        have := hpr.1
        rw [hch.1] at this
        exact le_of_lt this
      rw [List.getLast_cons_cons]
      exact le_trans h1 h2

theorem proper_getLast (t : List RangeEntry) (hpr : ProperTable t)
    (hne : t ≠ []) : (t.getLast hne).1 < (t.getLast hne).2.1 := by
  induction t with
  | nil => exact absurd rfl hne
  | cons r rest ih =>
    cases rest with
    | nil => simpa [List.getLast] using hpr.1
    | cons s rest2 =>
      rw [List.getLast_cons_cons]
      exact ih hpr.2 (by simp)

theorem remapLookup_get_lo (t : List RangeEntry) (hch : ChainedTable t)
    (hpr : ProperTable t) :
    ∀ (k : ℕ) (hk : k < t.length),
      remapLookup t (t.get ⟨k, hk⟩).1 = some (t.get ⟨k, hk⟩).2.2 := by
  induction t with
  | nil => intro k hk; simp at hk
  | cons r rest ih =>
    intro k hk
    cases rest with
    | nil =>
      have hk0 : k = 0 := by
        have : k < 1 := by simpa using hk
        omega
      subst hk0
      simp only [List.get, remapLookup]
      rw [if_pos ⟨le_refl _, le_of_lt hpr.1⟩]
    | cons s rest2 =>
      cases k with
      | zero =>
        simp only [List.get, remapLookup]
        rw [if_pos ⟨le_refl _, hpr.1⟩]
      | succ j =>
        have hj : j < (s :: rest2).length := by
          simpa using Nat.lt_of_succ_lt_succ hk
        have hsv : s.1 ≤ ((s :: rest2).get ⟨j, hj⟩).1 := by
          have := chained_head_le (s :: rest2) hch.2 hpr.2 j hj (by simp)
          simpa using this
        have hneg : ¬ (r.1 ≤ ((s :: rest2).get ⟨j, hj⟩).1 ∧
            ((s :: rest2).get ⟨j, hj⟩).1 < r.2.1) := by
          rintro ⟨-, hlt⟩
          rw [hch.1] at hlt
          exact absurd hsv (not_le.mpr hlt)
        have hget : ((r :: s :: rest2).get ⟨j + 1, hk⟩) =
            ((s :: rest2).get ⟨j, hj⟩) := rfl
        rw [hget]
        simp only [remapLookup]
        rw [if_neg hneg]
        exact ih hch.2 hpr.2 j hj

theorem remapLookup_last_hi (t : List RangeEntry) (hch : ChainedTable t)
    (hpr : ProperTable t) (hne : t ≠ []) :
    remapLookup t (t.getLast hne).2.1 = some (t.getLast hne).2.2 := by
  induction t with
  | nil => exact absurd rfl hne
  | cons r rest ih =>
    cases rest with
    | nil =>
      simp only [List.getLast, remapLookup]
      rw [if_pos ⟨le_of_lt hpr.1, le_refl _⟩]
    | cons s rest2 =>
      have hne2 : s :: rest2 ≠ [] := by simp
      have hlo : s.1 ≤ ((s :: rest2).getLast hne2).1 :=
        head_le_getLast_lo (s :: rest2) hch.2 hpr.2 hne2
      have hhi : ((s :: rest2).getLast hne2).1 <
          ((s :: rest2).getLast hne2).2.1 := proper_getLast _ hpr.2 hne2
      have hneg : ¬ (r.1 ≤ ((s :: rest2).getLast hne2).2.1 ∧
          ((s :: rest2).getLast hne2).2.1 < r.2.1) := by
        rintro ⟨-, hlt⟩
        rw [hch.1] at hlt
        exact absurd (le_trans hlo (le_of_lt hhi)) (not_le.mpr hlt)
      rw [List.getLast_cons_cons]
      simp only [remapLookup]
      rw [if_neg hneg]
      exact ih hch.2 hpr.2 hne2

/-- C1: For every chained table of nonempty intervals, reclassification is
half-open and lower-inclusive: a value equal to an interval's lower bound
(in particular an interior boundary) gets that interval's score, and only
the final interval is closed at its upper end; concretely, a slope of
exactly 5 under the fixed slope table scores 4, not 5. -/
theorem C1_boundary_rule (t : List RangeEntry) (hch : ChainedTable t)
    (hpr : ProperTable t) :
    (∀ (k : ℕ) (hk : k < t.length),
        remapLookup t (t.get ⟨k, hk⟩).1 = some (t.get ⟨k, hk⟩).2.2) ∧
    (∀ hne : t ≠ [],
        remapLookup t (t.getLast hne).2.1 = some (t.getLast hne).2.2) ∧
    remapLookup slopeTable 5 = some 4 ∧ remapLookup slopeTable 5 ≠ some 5 := by
  refine ⟨remapLookup_get_lo t hch hpr, remapLookup_last_hi t hch hpr, ?_, ?_⟩
  · decide
  · decide

/-- Witness for C1 at the fixed slope table: the interior boundary 5 takes
the score of the interval it opens, and the closed final interval absorbs
the domain maximum 90. -/
theorem C1_boundary_rule_witness :
    remapLookup slopeTable 5 = some 4 ∧ remapLookup slopeTable 90 = some 1 := by
  have h := C1_boundary_rule slopeTable
    (by refine ⟨rfl, rfl, rfl, rfl, trivial⟩)
    (by refine ⟨by norm_num, by norm_num, by norm_num, by norm_num, by norm_num, trivial⟩)
  refine ⟨h.2.2.1, ?_⟩
  have h90 := h.2.1 (by simp [slopeTable])
  simpa [slopeTable] using h90

theorem remapLookup_slope_total (v : ℚ) (h0 : 0 ≤ v) (h90 : v ≤ 90) :
    ∃ s, remapLookup slopeTable v = some s ∧ 1 ≤ s ∧ s ≤ 5 := by
  simp only [slopeTable, remapLookup]
  split_ifs with h1 h2 h3 h4 h5
  · exact ⟨5, rfl, by norm_num⟩
  · exact ⟨4, rfl, by norm_num⟩
  · exact ⟨3, rfl, by norm_num⟩
  · exact ⟨2, rfl, by norm_num⟩
  · exact ⟨1, rfl, by norm_num⟩
  · exfalso
    push_neg at h1 h2 h3 h4 h5
    have a1 : 5 ≤ v := h1 h0
    have a2 : 10 ≤ v := h2 a1
    have a3 : 15 ≤ v := h3 a2
    have a4 : 20 ≤ v := h4 a3
    exact absurd h90 (not_le.mpr (h5 a4))

theorem reclassifyCells_ok (t : List RangeEntry) (w : ℕ)
    (cells : List (Option ℚ)) (i0 : ℕ)
    (h : ∀ v : ℚ, some v ∈ cells → (remapLookup t v).isSome = true) :
    ∃ out, reclassifyCells t w i0 cells = .ok out := by
  induction cells generalizing i0 with
  | nil => exact ⟨[], rfl⟩
  | cons c rest ih =>
    cases c with
    | none =>
      obtain ⟨out, hout⟩ := ih (i0 + 1) (fun v hv => h v (List.mem_cons_of_mem _ hv))
      exact ⟨none :: out, by simp [reclassifyCells, hout, Except.map]⟩
    | some v =>
      have hv := h v (List.mem_cons_self _ _)
      obtain ⟨s, hs⟩ := Option.isSome_iff_exists.mp hv
      obtain ⟨out, hout⟩ := ih (i0 + 1) (fun u hu => h u (List.mem_cons_of_mem _ hu))
      exact ⟨some (s : ℚ) :: out, by simp [reclassifyCells, hs, hout, Except.map]⟩

/-- C9: The fixed slope table covers the whole physically valid slope
domain: every value in `[0, 90]` receives a score in `{1, …, 5}`, and on a
raster whose valid cells all lie in `[0, 90]` the out-of-range failure
branch of reclassification is unreachable. -/
theorem C9_slope_table_covers_domain :
    (∀ v : ℚ, 0 ≤ v → v ≤ 90 →
        ∃ s, remapLookup slopeTable v = some s ∧ 1 ≤ s ∧ s ≤ 5) ∧
    (∀ g : RasterGrid, (∀ v : ℚ, some v ∈ g.cells → 0 ≤ v ∧ v ≤ 90) →
        ∃ out, reclassify g slopeTable = .ok out) := by
  refine ⟨remapLookup_slope_total, fun g hg => ?_⟩
  have htotal : ∀ v : ℚ, some v ∈ g.cells →
      (remapLookup slopeTable v).isSome = true := by
    intro v hv
    obtain ⟨s, hs, -⟩ := remapLookup_slope_total v (hg v hv).1 (hg v hv).2
    simp [hs]
  obtain ⟨out, hout⟩ := reclassifyCells_ok slopeTable g.width g.cells 0 htotal
  exact ⟨{ g with cells := out }, by simp [reclassify, hout, Except.map]⟩

/-- Witness for C9 on a concrete in-domain value and raster. -/
theorem C9_slope_table_covers_domain_witness :
    (∃ s, remapLookup slopeTable 42 = some s ∧ 1 ≤ s ∧ s ≤ 5) ∧
    (∃ out, reclassify ⟨2, 1, 30, [some 0, some 90]⟩ slopeTable = .ok out) := by
  refine ⟨C9_slope_table_covers_domain.1 42 (by norm_num) (by norm_num),
    C9_slope_table_covers_domain.2 ⟨2, 1, 30, [some 0, some 90]⟩ ?_⟩
  intro v hv
  simp only [List.mem_cons, List.not_mem_nil, or_false] at hv
  rcases hv with hv | hv <;> · rw [Option.some_inj] at hv; subst hv; norm_num

theorem reclassifyCells_error_of_bad (t : List RangeEntry) (w : ℕ)
    (cells : List (Option ℚ)) (i0 : ℕ)
    (h : ∃ j v, cells.getD j none = some v ∧ remapLookup t v = none) :
    ∃ v j, reclassifyCells t w i0 cells =
        .error (.outOfRange v ((i0 + j) / w) ((i0 + j) % w)) ∧
      cells.getD j none = some v ∧ remapLookup t v = none := by
  induction cells generalizing i0 with
  | nil =>
    obtain ⟨j, v, hj, -⟩ := h
    simp at hj
  | cons c rest ih =>
    obtain ⟨j, v, hj, hv⟩ := h
    cases c with
    | none =>
      cases j with
      | zero => simp at hj
      | succ j2 =>
        have hj2 : rest.getD j2 none = some v := by simpa using hj
        obtain ⟨v2, j3, herr, hcell, hbad⟩ := ih (i0 + 1) ⟨j2, v, hj2, hv⟩
        refine ⟨v2, j3 + 1, ?_, by simpa using hcell, hbad⟩
        have harith : i0 + 1 + j3 = i0 + (j3 + 1) := by omega
        rw [harith] at herr
        simp [reclassifyCells, herr, Except.map]
    | some v0 =>
      rcases hlook : remapLookup t v0 with _ | s
      · exact ⟨v0, 0, by simp [reclassifyCells, hlook], by simp, hlook⟩
      · cases j with
        | zero =>
          rw [List.getD_cons_zero, Option.some_inj] at hj
          subst hj
          rw [hlook] at hv
          exact absurd hv (by simp)
        | succ j2 =>
          have hj2 : rest.getD j2 none = some v := by simpa using hj
          obtain ⟨v2, j3, herr, hcell, hbad⟩ := ih (i0 + 1) ⟨j2, v, hj2, hv⟩
          refine ⟨v2, j3 + 1, ?_, by simpa using hcell, hbad⟩
          have harith : i0 + 1 + j3 = i0 + (j3 + 1) := by omega
          rw [harith] at herr
          simp [reclassifyCells, hlook, herr, Except.map]

/-- C4: A valid cell value matched by no interval of the breakpoint table
makes reclassification fail with `OutOfRangeError` naming an offending
value and its cell coordinates, instead of producing a score raster. -/
theorem C4_out_of_range_error (g : RasterGrid) (t : List RangeEntry)
    (h : ∃ i v, cellAt g i = some v ∧ remapLookup t v = none) :
    ∃ v i, reclassify g t =
        .error (.outOfRange v (i / g.width) (i % g.width)) ∧
      cellAt g i = some v ∧ remapLookup t v = none := by
  obtain ⟨i, v, hi, hv⟩ := h
  obtain ⟨v2, j, herr, hcell, hbad⟩ :=
    reclassifyCells_error_of_bad t g.width g.cells 0 ⟨i, v, hi, hv⟩
  refine ⟨v2, j, ?_, hcell, hbad⟩
  rw [Nat.zero_add] at herr
  simp [reclassify, herr, Except.map]

/-- Witness for C4: the out-of-domain slope value 200 aborts with an
`OutOfRangeError` naming value 200 at cell (0, 0). -/
theorem C4_out_of_range_error_witness :
    ∃ v i, reclassify ⟨1, 1, 1, [some 200]⟩ slopeTable =
        .error (.outOfRange v (i / 1) (i % 1)) ∧
      cellAt ⟨1, 1, 1, [some 200]⟩ i = some v ∧
      remapLookup slopeTable v = none :=
  C4_out_of_range_error ⟨1, 1, 1, [some 200]⟩ slopeTable
    ⟨0, 200, rfl, by decide⟩

/-! ### Properties of the weighted overlay -/

theorem weightedCells_length (a b c d : List (Option ℚ))
    (hab : b.length = a.length) (hac : c.length = a.length)
    (had : d.length = a.length) :
    (weightedCells a b c d).length = a.length := by
  induction a generalizing b c d with
  | nil =>
    cases b <;> cases c <;> cases d <;> simp [weightedCells]
  | cons x a2 ih =>
    cases b with
    | nil => simp at hab
    | cons y b2 =>
      cases c with
      | nil => simp at hac
      | cons z c2 =>
        cases d with
        | nil => simp at had
        | cons u d2 =>
          simp only [weightedCells, List.length_cons]
          rw [ih b2 c2 d2 (by simpa using hab) (by simpa using hac)
            (by simpa using had)]

theorem weightedCells_getD (a b c d : List (Option ℚ))
    (hab : b.length = a.length) (hac : c.length = a.length)
    (had : d.length = a.length) (i : ℕ) (hi : i < a.length) :
    (weightedCells a b c d).getD i none =
      weightedCell (a.getD i none) (b.getD i none) (c.getD i none)
        (d.getD i none) := by
  induction a generalizing b c d i with
  | nil => simp at hi
  | cons x a2 ih =>
    cases b with
    | nil => simp at hab
    | cons y b2 =>
      cases c with
      | nil => simp at hac
      | cons z c2 =>
        cases d with
        | nil => simp at had
        | cons u d2 =>
          cases i with
          | zero => simp [weightedCells]
          | succ i2 =>
            simp only [weightedCells, List.getD_cons_succ]
            exact ih b2 c2 d2 (by simpa using hab) (by simpa using hac)
              (by simpa using had) i2 (by simpa using Nat.lt_of_succ_lt_succ hi)

/-- C2: On aligned inputs, the suitability value at a cell is the weighted
sum of the four scores when all are valid there, and the output cell is
NoData iff at least one input criterion is NoData there. -/
theorem C2_overlay_weighted_sum_nodata (s a r d : RasterGrid)
    (hab : a.cells.length = s.cells.length)
    (har : r.cells.length = s.cells.length)
    (had : d.cells.length = s.cells.length)
    (i : ℕ) (hi : i < s.cells.length) :
    (cellAt (calculate_suitability s a r d) i = none ↔
      cellAt s i = none ∨ cellAt a i = none ∨ cellAt r i = none ∨
        cellAt d i = none) ∧
    (∀ va vb vc vd : ℚ, cellAt s i = some va → cellAt a i = some vb →
      cellAt r i = some vc → cellAt d i = some vd →
      cellAt (calculate_suitability s a r d) i =
        some (3/10 * va + 2/10 * vb + 4/10 * vc + 1/10 * vd)) := by
  have hout : cellAt (calculate_suitability s a r d) i =
      weightedCell (cellAt s i) (cellAt a i) (cellAt r i) (cellAt d i) := by
    unfold calculate_suitability cellAt
    exact weightedCells_getD s.cells a.cells r.cells d.cells hab har had i hi
  constructor
  · rw [hout]
    rcases cellAt s i with _ | va <;> rcases cellAt a i with _ | vb <;>
      rcases cellAt r i with _ | vc <;> rcases cellAt d i with _ | vd <;>
      simp [weightedCell]
  · intro va vb vc vd hsa hba hca hda
    rw [hout, hsa, hba, hca, hda]
    rfl

/-- Witness for C2 on concrete 1×2 rasters: the first cell gets the
weighted sum and the second (NoData in one input) is NoData. -/
theorem C2_overlay_weighted_sum_nodata_witness :
    (cellAt (calculate_suitability ⟨2, 1, 1, [some 5, some 5]⟩
        ⟨2, 1, 1, [some 4, none]⟩ ⟨2, 1, 1, [some 3, some 3]⟩
        ⟨2, 1, 1, [some 2, some 2]⟩) 0 =
      some (3/10 * 5 + 2/10 * 4 + 4/10 * 3 + 1/10 * 2)) ∧
    (cellAt (calculate_suitability ⟨2, 1, 1, [some 5, some 5]⟩
        ⟨2, 1, 1, [some 4, none]⟩ ⟨2, 1, 1, [some 3, some 3]⟩
        ⟨2, 1, 1, [some 2, some 2]⟩) 1 = none) := by
  constructor
  · exact (C2_overlay_weighted_sum_nodata ⟨2, 1, 1, [some 5, some 5]⟩
      ⟨2, 1, 1, [some 4, none]⟩ ⟨2, 1, 1, [some 3, some 3]⟩
      ⟨2, 1, 1, [some 2, some 2]⟩ rfl rfl rfl 0 (by norm_num)).2 5 4 3 2
      rfl rfl rfl rfl
  · exact (C2_overlay_weighted_sum_nodata ⟨2, 1, 1, [some 5, some 5]⟩
      ⟨2, 1, 1, [some 4, none]⟩ ⟨2, 1, 1, [some 3, some 3]⟩
      ⟨2, 1, 1, [some 2, some 2]⟩ rfl rfl rfl 1 (by norm_num)).1.mpr
      (by right; left; rfl)

/-- C7: When every valid input score lies in `[1, 5]`, every valid cell of
the suitability surface lies in `[1, 5]` (the weights sum to 1). -/
theorem C7_suitability_in_hull (s a r d : RasterGrid)
    (hab : a.cells.length = s.cells.length)
    (har : r.cells.length = s.cells.length)
    (had : d.cells.length = s.cells.length)
    (hs : ∀ v : ℚ, some v ∈ s.cells → 1 ≤ v ∧ v ≤ 5)
    (ha : ∀ v : ℚ, some v ∈ a.cells → 1 ≤ v ∧ v ≤ 5)
    (hr : ∀ v : ℚ, some v ∈ r.cells → 1 ≤ v ∧ v ≤ 5)
    (hd : ∀ v : ℚ, some v ∈ d.cells → 1 ≤ v ∧ v ≤ 5) :
    ∀ (i : ℕ) (v : ℚ),
      cellAt (calculate_suitability s a r d) i = some v → 1 ≤ v ∧ v ≤ 5 := by
  intro i v hv
  have hi : i < s.cells.length := by
    by_contra hge
    have hlen : (weightedCells s.cells a.cells r.cells d.cells).length ≤ i := by
      rw [weightedCells_length s.cells a.cells r.cells d.cells hab har had]
      omega
    have : cellAt (calculate_suitability s a r d) i = none := by
      unfold calculate_suitability cellAt
      exact List.getD_eq_default _ _ hlen
    rw [this] at hv
    exact absurd hv (by simp)
  have hout : cellAt (calculate_suitability s a r d) i =
      weightedCell (cellAt s i) (cellAt a i) (cellAt r i) (cellAt d i) := by
    unfold calculate_suitability cellAt
    exact weightedCells_getD s.cells a.cells r.cells d.cells hab har had i hi
  rw [hout] at hv
  rcases hsa : cellAt s i with _ | va <;> rw [hsa] at hv
  · exact absurd hv (by simp [weightedCell])
  rcases hba : cellAt a i with _ | vb <;> rw [hba] at hv
  · exact absurd hv (by simp [weightedCell])
  rcases hca : cellAt r i with _ | vc <;> rw [hca] at hv
  · exact absurd hv (by simp [weightedCell])
  rcases hda : cellAt d i with _ | vd <;> rw [hda] at hv
  · exact absurd hv (by simp [weightedCell])
  have hv2 : v = 3/10 * va + 2/10 * vb + 4/10 * vc + 1/10 * vd := by
    have h2 := hv
    simp only [weightedCell, Option.some_inj] at h2
    exact h2.symm
  have hmemS : some va ∈ s.cells := by
    rw [cellAt, List.getD_eq_getElem _ _ hi] at hsa
    exact hsa ▸ List.getElem_mem hi
  have hiA : i < a.cells.length := by omega
  have hmemA : some vb ∈ a.cells := by
    rw [cellAt, List.getD_eq_getElem _ _ hiA] at hba
    exact hba ▸ List.getElem_mem hiA
  have hiR : i < r.cells.length := by omega
  have hmemR : some vc ∈ r.cells := by
    rw [cellAt, List.getD_eq_getElem _ _ hiR] at hca
    exact hca ▸ List.getElem_mem hiR
  have hiD : i < d.cells.length := by omega
  have hmemD : some vd ∈ d.cells := by
    rw [cellAt, List.getD_eq_getElem _ _ hiD] at hda
    exact hda ▸ List.getElem_mem hiD
  obtain ⟨h1a, h1b⟩ := hs va hmemS
  obtain ⟨h2a, h2b⟩ := ha vb hmemA
  obtain ⟨h3a, h3b⟩ := hr vc hmemR
  obtain ⟨h4a, h4b⟩ := hd vd hmemD
  constructor <;> rw [hv2] <;> linarith

/-- Witness for C7: with scores 5, 1, 3, 2 at the only cell, the
suitability value 31/10 lies in `[1, 5]`. -/
theorem C7_suitability_in_hull_witness :
    1 ≤ (31/10 : ℚ) ∧ (31/10 : ℚ) ≤ 5 := by
  refine C7_suitability_in_hull ⟨1, 1, 1, [some 5]⟩ ⟨1, 1, 1, [some 1]⟩
    ⟨1, 1, 1, [some 3]⟩ ⟨1, 1, 1, [some 2]⟩ rfl rfl rfl ?_ ?_ ?_ ?_ 0 (31/10)
    (by norm_num [calculate_suitability, cellAt, weightedCells, weightedCell]) <;>
  · intro u hu
    simp only [List.mem_cons, List.not_mem_nil, or_false, Option.some_inj] at hu
    subst hu
    norm_num

/-- C6: A weight mapping whose keys differ from the score keys, or whose
values do not sum to 1 within `1e-6`, makes the overlay fail with
`ConfigurationError` for every choice of score rasters — before any raster
work, and without renormalizing the weights. -/
theorem C6_configuration_error (scores : List (String × RasterGrid))
    (ws : List (String × ℚ))
    (h : keysMatch scores ws = false ∨ ¬ |weightSum ws - 1| ≤ 1/1000000) :
    overlay scores ws = .error .configuration := by
  rcases h with h | h
  · simp [overlay, h]
  · cases hk : keysMatch scores ws with
    | false => simp [overlay, hk]
    | true =>
      simp only [overlay, hk]
      rw [if_neg (by simp), if_pos h]

/-- Witness for C6: a single weight of 1/2 is rejected. -/
theorem C6_configuration_error_witness :
    overlay [("slope", ⟨1, 1, 1, [some 1]⟩)] [("slope", 1/2)] =
      .error .configuration :=
  C6_configuration_error _ _ (Or.inr (by
    have hsum : weightSum [("slope", (1 : ℚ)/2)] = 1/2 := by
      norm_num [weightSum]
    rw [hsum, show ((1 : ℚ)/2 - 1) = -(1/2) by norm_num, abs_neg,
      abs_of_pos (by norm_num : (0 : ℚ) < 1/2)]
    norm_num))

/-! ### Properties of quantile classification -/

/-- C8: When no cell passes the exclusion predicate (all NoData or
non-positive), quantile classification fails with `EmptySampleError`. -/
theorem C8_empty_sample_error (g : RasterGrid) (h : validValues g = []) :
    calculate_solar_radiation g = .error .emptySample := by
  simp [calculate_solar_radiation, h]

/-- Witness for C8 on a raster with one NoData, one zero and one negative
cell: the sample is empty and classification fails. -/
theorem C8_empty_sample_error_witness :
    calculate_solar_radiation ⟨3, 1, 1, [none, some 0, some (-3)]⟩ =
      .error .emptySample :=
  C8_empty_sample_error ⟨3, 1, 1, [none, some 0, some (-3)]⟩ (by decide)

/-- C3: With a nonempty sample, quantile classification samples exactly the
valid cells with value > 0, computes the 6 breakpoints at percentiles
0, 20, …, 100 of that sample by linear interpolation between order
statistics, assigns scores 1..5 ascending to the consecutive breakpoint
intervals, and reclassifies with that table. -/
theorem C3_quantile_classification (g : RasterGrid)
    (hne : validValues g ≠ []) :
    (∀ v : ℚ, v ∈ validValues g ↔ some v ∈ g.cells ∧ 0 < v) ∧
    solarBreaks g = specQuantileBreakpoints 5 (validValues g) ∧
    (solarBreaks g).length = 6 ∧
    (∀ k : ℕ, k < 5 → (solarTable g).getD k (0, 0, 0) =
      ((solarBreaks g).getD k 0, (solarBreaks g).getD (k + 1) 0, k + 1)) ∧
    calculate_solar_radiation g = reclassify g (solarTable g) := by
  refine ⟨?_, ?_, ?_, ?_, ?_⟩
  · intro v
    simp [validValues, List.mem_filter, List.mem_filterMap]
  · simp only [solarBreaks, solarQuantiles, specQuantileBreakpoints,
      List.map_cons, List.map_nil]
    norm_num [List.range_succ]
  · simp [solarBreaks, solarQuantiles]
  · intro k hk
    interval_cases k <;> rfl
  · simp [calculate_solar_radiation, hne]

/-- Witness for C3 on the raster with values 1..5 and one NoData cell. -/
theorem C3_quantile_classification_witness :
    ((3 : ℚ) ∈ validValues ⟨6, 1, 1, [some 1, some 2, some 3, some 4, some 5, none]⟩ ↔
      some (3 : ℚ) ∈ ([some 1, some 2, some 3, some 4, some 5, none] :
        List (Option ℚ)) ∧ (0 : ℚ) < 3) ∧
    solarBreaks ⟨6, 1, 1, [some 1, some 2, some 3, some 4, some 5, none]⟩ =
      specQuantileBreakpoints 5
        (validValues ⟨6, 1, 1, [some 1, some 2, some 3, some 4, some 5, none]⟩) ∧
    calculate_solar_radiation ⟨6, 1, 1, [some 1, some 2, some 3, some 4, some 5, none]⟩ =
      reclassify ⟨6, 1, 1, [some 1, some 2, some 3, some 4, some 5, none]⟩
        (solarTable ⟨6, 1, 1, [some 1, some 2, some 3, some 4, some 5, none]⟩) := by
  have h := C3_quantile_classification
    ⟨6, 1, 1, [some 1, some 2, some 3, some 4, some 5, none]⟩ (by decide)
  exact ⟨h.1 3, h.2.1, h.2.2.2.2⟩

theorem percentile_pos (xs : List ℚ) (hne : xs ≠ [])
    (hpos : ∀ x ∈ xs, 0 < x) (q : ℚ) (hq0 : 0 ≤ q) (hq1 : q ≤ 100) :
    0 < percentile xs q := by
  have hlen : (sortedSample xs).length = xs.length := by
    rw [sortedSample]
    exact List.length_insertionSort (r := fun a b => a ≤ b) xs
  have hn1 : 1 ≤ (sortedSample xs).length := by
    rw [hlen]
    exact Nat.one_le_iff_ne_zero.mpr
      (fun h => hne (List.eq_nil_of_length_eq_zero h))
  rw [percentile, if_neg (by omega)]
  set s := sortedSample xs with hs
  set n := s.length with hn
  set rank := percRank n q with hrankdef
  have hmem : ∀ x ∈ s, 0 < x := by
    intro x hx
    rw [hs, sortedSample] at hx
    exact hpos x ((List.mem_insertionSort (r := fun a b => a ≤ b)).mp hx)
  have hrank0 : 0 ≤ rank := by
    rw [hrankdef, percRank]
    have h1 : (0 : ℚ) ≤ q / 100 := div_nonneg hq0 (by norm_num)
    have h2 : (0 : ℚ) ≤ (n : ℚ) - 1 := by
      have : (1 : ℚ) ≤ (n : ℚ) := by exact_mod_cast hn1
      linarith
    exact mul_nonneg h1 h2
  have hrank_le : rank ≤ (n : ℚ) - 1 := by
    rw [hrankdef, percRank]
    have h1 : q / 100 ≤ 1 := by
      rw [div_le_one (by norm_num : (0:ℚ) < 100)]
      exact hq1
    have h2 : (0 : ℚ) ≤ (n : ℚ) - 1 := by
      have : (1 : ℚ) ≤ (n : ℚ) := by exact_mod_cast hn1
      linarith
    nlinarith
  have hfloor0 : 0 ≤ ⌊rank⌋ := Int.floor_nonneg.mpr hrank0
  have hkZ : (((⌊rank⌋).toNat : ℕ) : ℤ) = ⌊rank⌋ := Int.toNat_of_nonneg hfloor0
  have hkcast : (((⌊rank⌋).toNat : ℕ) : ℚ) = ((⌊rank⌋ : ℤ) : ℚ) := by
    exact_mod_cast hkZ
  have hk_le : (((⌊rank⌋).toNat : ℕ) : ℚ) ≤ rank := by
    rw [hkcast]
    exact Int.floor_le rank
  have hd0 : 0 ≤ rank - (((⌊rank⌋).toNat : ℕ) : ℚ) := by linarith
  have hd1 : rank - (((⌊rank⌋).toNat : ℕ) : ℚ) < 1 := by
    have := Int.lt_floor_add_one rank
    rw [hkcast]
    linarith
  have hk_lt_n : (⌊rank⌋).toNat < n := by
    have h1 : (((⌊rank⌋).toNat : ℕ) : ℚ) ≤ (n : ℚ) - 1 := le_trans hk_le hrank_le
    have h2 : (((⌊rank⌋).toNat : ℕ) : ℚ) < (n : ℚ) := by linarith
    exact_mod_cast h2
  have hlo_pos : 0 < s.getD (⌊rank⌋).toNat 0 := by
    apply hmem
    rw [List.getD_eq_getElem _ _ hk_lt_n]
    exact List.getElem_mem hk_lt_n
  rw [interpAt]
  by_cases hk1 : (⌊rank⌋).toNat + 1 < n
  · have hhi_pos : 0 < s.getD ((⌊rank⌋).toNat + 1) (s.getD (⌊rank⌋).toNat 0) := by
      apply hmem
      rw [List.getD_eq_getElem _ _ hk1]
      exact List.getElem_mem hk1
    nlinarith [mul_pos (by linarith : (0:ℚ) < 1 - (rank - (((⌊rank⌋).toNat : ℕ) : ℚ)))
        hlo_pos,
      mul_nonneg hd0 (le_of_lt hhi_pos)]
  · have hdef : s.getD ((⌊rank⌋).toNat + 1) (s.getD (⌊rank⌋).toNat 0) =
        s.getD (⌊rank⌋).toNat 0 :=
      List.getD_eq_default _ _ (by omega)
    rw [hdef]
    have : s.getD (⌊rank⌋).toNat 0 +
        (rank - (((⌊rank⌋).toNat : ℕ) : ℚ)) *
          (s.getD (⌊rank⌋).toNat 0 - s.getD (⌊rank⌋).toNat 0) =
        s.getD (⌊rank⌋).toNat 0 := by ring
    rw [this]
    exact hlo_pos

/-- C10 (amended): A valid cell with value ≤ 0 is excluded from the
breakpoint sample, its value lies strictly below the lowest breakpoint and
outside every interval of the quantile table — but instead of silently
becoming NoData in an output raster, classification fails with an
`OutOfRangeError` (no solar score raster is produced). -/
theorem C10_nonpositive_cell_fails (g : RasterGrid) (i : ℕ) (v : ℚ)
    (hcell : cellAt g i = some v) (hv : v ≤ 0) (hne : validValues g ≠ []) :
    v ∉ validValues g ∧
    v < (solarBreaks g).getD 0 0 ∧
    remapLookup (solarTable g) v = none ∧
    ∃ w r c, calculate_solar_radiation g = .error (.outOfRange w r c) := by
  have hpos_sample : ∀ x ∈ validValues g, 0 < x := by
    intro x hx
    simp only [validValues, List.mem_filter, decide_eq_true_eq] at hx
    exact hx.2
  have hbk : ∀ k : ℕ, k < 6 → 0 < (solarBreaks g).getD k 0 := by
    intro k hk
    have hmap : solarBreaks g =
        [percentile (validValues g) (0 * 100),
         percentile (validValues g) (2/10 * 100),
         percentile (validValues g) (4/10 * 100),
         percentile (validValues g) (6/10 * 100),
         percentile (validValues g) (8/10 * 100),
         percentile (validValues g) (1 * 100)] := rfl
    rw [hmap]
    interval_cases k <;>
    · simp only [List.getD_cons_zero, List.getD_cons_succ]
      exact percentile_pos _ hne hpos_sample _ (by norm_num) (by norm_num)
  have hvlt : ∀ k : ℕ, k < 6 → v < (solarBreaks g).getD k 0 := by
    intro k hk
    have := hbk k hk
    linarith
  have hlook : remapLookup (solarTable g) v = none := by
    simp only [solarTable, remapLookup]
    rw [if_neg (fun hc => absurd hc.1 (not_le.mpr (hvlt 0 (by norm_num)))),
      if_neg (fun hc => absurd hc.1 (not_le.mpr (hvlt 1 (by norm_num)))),
      if_neg (fun hc => absurd hc.1 (not_le.mpr (hvlt 2 (by norm_num)))),
      if_neg (fun hc => absurd hc.1 (not_le.mpr (hvlt 3 (by norm_num)))),
      if_neg (fun hc => absurd hc.1 (not_le.mpr (hvlt 4 (by norm_num))))]
  refine ⟨?_, hvlt 0 (by norm_num), hlook, ?_⟩
  · intro hmem
    have := hpos_sample v hmem
    linarith
  · unfold cellAt at hcell
    obtain ⟨w2, j, herr, -, -⟩ := reclassifyCells_error_of_bad (solarTable g)
      g.width g.cells 0 ⟨i, v, hcell, hlook⟩
    refine ⟨w2, (0 + j) / g.width, (0 + j) % g.width, ?_⟩
    rw [show calculate_solar_radiation g = reclassify g (solarTable g) by
        simp [calculate_solar_radiation, hne],
      reclassify, herr]
    rfl

/-- Counterexample to C10 as stated: on the raster `[0, 1, 2]` the valid
cell with value 0 is excluded from the sample, and quantile classification
then fails with an `OutOfRangeError` at that cell — it does not produce a
solar score raster with that cell as NoData. -/
theorem C10_counterexample :
    calculate_solar_radiation ⟨3, 1, 10, [some 0, some 1, some 2]⟩ =
      .error (.outOfRange 0 0 0) := by
  have hvv : validValues ⟨3, 1, 10, [some 0, some 1, some 2]⟩ = [1, 2] := by
    decide
  have hb : solarBreaks ⟨3, 1, 10, [some 0, some 1, some 2]⟩ =
      [1, 6/5, 7/5, 8/5, 9/5, 2] := by
    rw [solarBreaks, hvv]
    norm_num [solarQuantiles, percentile, sortedSample, List.insertionSort,
      List.orderedInsert, percRank, interpAt]
  have htab : solarTable ⟨3, 1, 10, [some 0, some 1, some 2]⟩ =
      [(1, 6/5, 1), (6/5, 7/5, 2), (7/5, 8/5, 3), (8/5, 9/5, 4), (9/5, 2, 5)] := by
    simp only [solarTable]
    rw [hb]
    rfl
  have hlook : remapLookup
      (solarTable ⟨3, 1, 10, [some 0, some 1, some 2]⟩) 0 = none := by
    rw [htab]
    norm_num [remapLookup]
  rw [calculate_solar_radiation, if_neg (by rw [hvv]; simp), reclassify]
  show Except.map _ (reclassifyCells _ 3 0 [some 0, some 1, some 2]) = _
  simp only [reclassifyCells, hlook]
  rfl

/-- Witness for the amended C10 at the counterexample raster: value 0 at
cell 0 is excluded, falls below every breakpoint, and classification
fails with an `OutOfRangeError`. -/
theorem C10_nonpositive_cell_fails_witness :
    (0 : ℚ) ∉ validValues ⟨3, 1, 10, [some 0, some 1, some 2]⟩ ∧
    (0 : ℚ) < (solarBreaks ⟨3, 1, 10, [some 0, some 1, some 2]⟩).getD 0 0 ∧
    remapLookup (solarTable ⟨3, 1, 10, [some 0, some 1, some 2]⟩) 0 = none ∧
    ∃ w r c, calculate_solar_radiation ⟨3, 1, 10, [some 0, some 1, some 2]⟩ =
      .error (.outOfRange w r c) := by
  have h := C10_nonpositive_cell_fails ⟨3, 1, 10, [some 0, some 1, some 2]⟩
    0 0 rfl (by norm_num) (by decide)
  exact ⟨h.1, by linarith [h.2.1], h.2.2.1, h.2.2.2⟩

/-! ### Properties of zone extraction -/

theorem subset_grow (adjB : ℕ → ℕ → Bool) (qual : ℕ → Bool) (univ : List ℕ)
    (vis : List ℕ) : vis ⊆ grow adjB qual univ vis :=
  fun _ hx => List.mem_append.mpr (Or.inl hx)

theorem grow_mem (adjB : ℕ → ℕ → Bool) (qual : ℕ → Bool) (univ : List ℕ)
    (vis : List ℕ) (x : ℕ) (hx : x ∈ grow adjB qual univ vis) :
    x ∈ vis ∨ (qual x = true ∧ x ∈ univ) := by
  rcases List.mem_append.mp hx with h | h
  · exact Or.inl h
  · have hf := List.mem_filter.mp h
    have hb := hf.2
    simp only [Bool.and_eq_true] at hb
    exact Or.inr ⟨hb.1.1, hf.1⟩

theorem grow_nodup (adjB : ℕ → ℕ → Bool) (qual : ℕ → Bool) (univ : List ℕ)
    (vis : List ℕ) (hv : vis.Nodup) (hu : univ.Nodup) :
    (grow adjB qual univ vis).Nodup := by
  rw [grow]
  refine List.Nodup.append hv (hu.filter _) ?_
  intro x hxv hxf
  have hb := (List.mem_filter.mp hxf).2
  simp only [Bool.and_eq_true, decide_eq_true_eq] at hb
  exact hb.1.2 hxv

theorem grow_fix_closure (adjB : ℕ → ℕ → Bool) (qual : ℕ → Bool)
    (univ : List ℕ) (vis : List ℕ) (hfix : grow adjB qual univ vis = vis) :
    ∀ j, j ∈ univ → qual j = true → (∃ p ∈ vis, adjB p j = true) →
      j ∈ vis := by
  intro j hju hq hadj
  by_contra hnj
  have hmemf : j ∈ univ.filter
      (fun j => qual j && decide (j ∉ vis) && vis.any (fun p => adjB p j)) := by
    refine List.mem_filter.mpr ⟨hju, ?_⟩
    simp only [Bool.and_eq_true, decide_eq_true_eq, List.any_eq_true]
    exact ⟨⟨hq, hnj⟩, hadj⟩
  have hjgrow : j ∈ grow adjB qual univ vis :=
    List.mem_append.mpr (Or.inr hmemf)
  rw [hfix] at hjgrow
  exact hnj hjgrow

theorem growN_fix (adjB : ℕ → ℕ → Bool) (qual : ℕ → Bool) (univ : List ℕ)
    (fuel : ℕ) (vis : List ℕ) (hfix : grow adjB qual univ vis = vis) :
    growN adjB qual univ fuel vis = vis := by
  induction fuel with
  | zero => rfl
  | succ n ih =>
    simp only [growN]
    rw [hfix]
    exact ih

theorem subset_growN (adjB : ℕ → ℕ → Bool) (qual : ℕ → Bool) (univ : List ℕ)
    (fuel : ℕ) (vis : List ℕ) : vis ⊆ growN adjB qual univ fuel vis := by
  induction fuel generalizing vis with
  | zero => exact fun x hx => hx
  | succ n ih =>
    intro x hx
    simp only [growN]
    exact ih (grow adjB qual univ vis) (subset_grow adjB qual univ vis hx)

theorem growN_mem (adjB : ℕ → ℕ → Bool) (qual : ℕ → Bool) (univ : List ℕ)
    (fuel : ℕ) (vis : List ℕ) (x : ℕ) (hx : x ∈ growN adjB qual univ fuel vis) :
    x ∈ vis ∨ (qual x = true ∧ x ∈ univ) := by
  induction fuel generalizing vis with
  | zero => exact Or.inl hx
  | succ n ih =>
    simp only [growN] at hx
    rcases ih (grow adjB qual univ vis) hx with h | h
    · exact grow_mem adjB qual univ vis x h
    · exact Or.inr h

theorem growN_nodup (adjB : ℕ → ℕ → Bool) (qual : ℕ → Bool) (univ : List ℕ)
    (hu : univ.Nodup) (fuel : ℕ) (vis : List ℕ) (hv : vis.Nodup) :
    (growN adjB qual univ fuel vis).Nodup := by
  induction fuel generalizing vis with
  | zero => exact hv
  | succ n ih =>
    simp only [growN]
    exact ih (grow adjB qual univ vis) (grow_nodup adjB qual univ vis hv hu)

theorem grow_saturates (adjB : ℕ → ℕ → Bool) (qual : ℕ → Bool) (univ : List ℕ)
    (vis : List ℕ) (hv : vis.Nodup)
    (hsub : ∀ x ∈ vis, x ∈ univ) (hlen : univ.length ≤ vis.length) :
    grow adjB qual univ vis = vis := by
  have hf : univ.filter
      (fun j => qual j && decide (j ∉ vis) && vis.any (fun p => adjB p j)) = [] := by
    by_contra hne
    obtain ⟨j, hj⟩ := List.exists_mem_of_ne_nil _ hne
    have hjf := List.mem_filter.mp hj
    have hcond := hjf.2
    simp only [Bool.and_eq_true, decide_eq_true_eq] at hcond
    have hnodup : (j :: vis).Nodup := List.nodup_cons.mpr ⟨hcond.1.2, hv⟩
    have hsub2 : (j :: vis) ⊆ univ := by
      intro x hx
      rcases List.mem_cons.mp hx with rfl | hx2
      · exact hjf.1
      · exact hsub x hx2
    have hle := (hnodup.subperm hsub2).length_le
    simp only [List.length_cons] at hle
    omega
  rw [grow, hf, List.append_nil]

theorem growN_saturates (adjB : ℕ → ℕ → Bool) (qual : ℕ → Bool) (univ : List ℕ)
    (hu : univ.Nodup) (fuel : ℕ) :
    ∀ vis : List ℕ, vis.Nodup → (∀ x ∈ vis, x ∈ univ) →
      univ.length ≤ fuel + vis.length →
      grow adjB qual univ (growN adjB qual univ fuel vis) =
        growN adjB qual univ fuel vis := by
  induction fuel with
  | zero =>
    intro vis hv hsub hlen
    exact grow_saturates adjB qual univ vis hv hsub (by omega)
  | succ n ih =>
    intro vis hv hsub hlen
    simp only [growN]
    by_cases hfx : grow adjB qual univ vis = vis
    · rw [hfx, growN_fix adjB qual univ n vis hfx, hfx]
    · have hflen : (grow adjB qual univ vis).length ≥ vis.length + 1 := by
        rw [grow, List.length_append]
        rcases hfe : univ.filter (fun j => qual j && decide (j ∉ vis) &&
            vis.any (fun p => adjB p j)) with _ | ⟨a, f2⟩
        · exact absurd (by rw [grow, hfe, List.append_nil]) hfx
        · simp
      refine ih (grow adjB qual univ vis)
        (grow_nodup adjB qual univ vis hv hu) ?_ ?_
      · intro x hx
        rcases grow_mem adjB qual univ vis x hx with h | h
        · exact hsub x h
        · exact h.2
      · omega

theorem component_start_mem (adjB : ℕ → ℕ → Bool) (qual : ℕ → Bool)
    (univ : List ℕ) (start : ℕ) :
    start ∈ component adjB qual univ start :=
  subset_growN adjB qual univ univ.length [start] (List.mem_singleton_self start)

theorem component_sound (adjB : ℕ → ℕ → Bool) (qual : ℕ → Bool)
    (univ : List ℕ) (start : ℕ) (hq : qual start = true) :
    ∀ x ∈ component adjB qual univ start, qual x = true := by
  intro x hx
  rcases growN_mem adjB qual univ univ.length [start] x hx with h | h
  · rw [List.mem_singleton.mp h]
    exact hq
  · exact h.1

theorem component_nodup (adjB : ℕ → ℕ → Bool) (qual : ℕ → Bool)
    (univ : List ℕ) (hu : univ.Nodup) (start : ℕ) :
    (component adjB qual univ start).Nodup :=
  growN_nodup adjB qual univ hu univ.length [start] (List.nodup_singleton start)

theorem component_fix (adjB : ℕ → ℕ → Bool) (qual : ℕ → Bool)
    (univ : List ℕ) (hu : univ.Nodup) (start : ℕ) (hst : start ∈ univ) :
    grow adjB qual univ (component adjB qual univ start) =
      component adjB qual univ start := by
  refine growN_saturates adjB qual univ hu univ.length [start]
    (List.nodup_singleton start) ?_ (by simp)
  intro x hx
  rw [List.mem_singleton.mp hx]
  exact hst

theorem component_complete (adjB : ℕ → ℕ → Bool) (qual : ℕ → Bool)
    (univ : List ℕ) (hu : univ.Nodup)
    (huniv : ∀ i, qual i = true → i ∈ univ)
    (start : ℕ) (hst : start ∈ univ) (x : ℕ)
    (hpath : Relation.ReflTransGen
      (fun a b => qual b = true ∧ adjB a b = true) start x) :
    x ∈ component adjB qual univ start := by
  induction hpath with
  | refl => exact component_start_mem adjB qual univ start
  | tail hab hbc ih =>
    exact grow_fix_closure adjB qual univ _
      (component_fix adjB qual univ hu start hst) _
      (huniv _ hbc.1) hbc.1 ⟨_, ih, hbc.2⟩

theorem zonesLoop_nil_of_visited (adjB : ℕ → ℕ → Bool) (qual : ℕ → Bool)
    (univ : List ℕ) (vis : List ℕ) :
    ∀ L : List ℕ, (∀ i ∈ L, qual i = true → i ∈ vis) →
      zonesLoop adjB qual univ L vis = [] := by
  intro L
  induction L with
  | nil => intro _; rfl
  | cons a rest ih =>
    intro h
    simp only [zonesLoop]
    rw [if_neg (by
      simp only [Bool.and_eq_true, decide_eq_true_eq]
      rintro ⟨hq, hnv⟩
      exact hnv (h a (List.mem_cons_self a rest) hq))]
    exact ih (fun i hi hq => h i (List.mem_cons_of_mem a hi) hq)

theorem zonesLoop_all_skip (adjB : ℕ → ℕ → Bool) (qual : ℕ → Bool)
    (univ : List ℕ) :
    ∀ (L : List ℕ) (vis : List ℕ), (∀ i ∈ L, qual i = false) →
      zonesLoop adjB qual univ L vis = [] := by
  intro L
  induction L with
  | nil => intro vis _; rfl
  | cons a rest ih =>
    intro vis h
    simp only [zonesLoop]
    rw [if_neg (by simp [h a (List.mem_cons_self a rest)])]
    exact ih vis (fun i hi => h i (List.mem_cons_of_mem a hi))

theorem zonesLoop_single (adjB : ℕ → ℕ → Bool) (qual : ℕ → Bool)
    (univ : List ℕ) (hu : univ.Nodup)
    (huniv : ∀ i, qual i = true → i ∈ univ)
    (hconn : ∀ i j, qual i = true → qual j = true →
      Relation.ReflTransGen (fun a b => qual b = true ∧ adjB a b = true) i j) :
    ∀ L : List ℕ, (∃ i ∈ L, qual i = true) →
      ∃ comp, zonesLoop adjB qual univ L [] = [comp] ∧
        (∀ x, x ∈ comp ↔ qual x = true) ∧ comp.Nodup := by
  intro L
  induction L with
  | nil =>
    rintro ⟨i, hi, -⟩
    simp at hi
  | cons a rest ih =>
    intro hex
    by_cases hqa : qual a = true
    · refine ⟨component adjB qual univ a, ?_, ?_,
        component_nodup adjB qual univ hu a⟩
      · simp only [zonesLoop]
        rw [if_pos (by simp [hqa]), List.nil_append,
          zonesLoop_nil_of_visited adjB qual univ _ rest
            (fun i _ hq => component_complete adjB qual univ hu huniv a
              (huniv a hqa) i (hconn a i hqa hq))]
      · intro x
        exact ⟨fun hx => component_sound adjB qual univ a hqa x hx,
          fun hx => component_complete adjB qual univ hu huniv a
            (huniv a hqa) x (hconn a x hqa hx)⟩
    · simp only [zonesLoop]
      rw [if_neg (by simp [hqa])]
      apply ih
      obtain ⟨i, hi, hq⟩ := hex
      rcases List.mem_cons.mp hi with rfl | hi2
      · exact absurd hq hqa
      · exact ⟨i, hi2, hq⟩

theorem cellAt_isSome_lt (g : RasterGrid) (i : ℕ)
    (h : (cellAt g i).isSome = true) : i < g.cells.length := by
  by_contra hge
  rw [cellAt, List.getD_eq_default _ _ (by omega)] at h
  simp at h

theorem qualifies_eq_false_of_lt (g : RasterGrid) (t : ℚ)
    (h : ∀ i v, cellAt g i = some v → v < t) :
    ∀ i, qualifies g t i = false := by
  intro i
  rcases hc : cellAt g i with _ | v
  · simp [qualifies, hc]
  · simp only [qualifies, hc]
    exact decide_eq_false (not_le.mpr (h i v hc))

theorem qualifies_eq_isSome_of_le (g : RasterGrid) (t : ℚ)
    (h : ∀ i v, cellAt g i = some v → t ≤ v) :
    ∀ i, qualifies g t i = (cellAt g i).isSome := by
  intro i
  rcases hc : cellAt g i with _ | v
  · simp [qualifies, hc]
  · simp only [qualifies, hc, Option.isSome_some]
    exact decide_eq_true (h i v hc)

/-- C5: Zone extraction with a threshold strictly above every valid value
returns the empty sequence (not an error); with a threshold at or below
every valid value and fully 4-connected valid cells (and the minimum-area
filter passing), it returns exactly one region covering all valid cells. -/
theorem C5_extract_zones_extremes (g : RasterGrid) (t ma : ℚ) :
    ((∀ i v, cellAt g i = some v → v < t) → extract_zones g t ma = []) ∧
    ((∀ i v, cellAt g i = some v → t ≤ v) →
     (∃ i0, (cellAt g i0).isSome = true) →
     (∀ i j, (cellAt g i).isSome = true → (cellAt g j).isSome = true →
        Relation.ReflTransGen (fun a b => (cellAt g b).isSome = true ∧
          adjacent g.width a b = true) i j) →
     ma ≤ regionArea g ((List.range g.cells.length).filter
        (fun i => (cellAt g i).isSome)) →
     ∃ region, extract_zones g t ma = [region] ∧
       ∀ i, i ∈ region ↔ (cellAt g i).isSome = true) := by
  constructor
  · intro h
    have hq := qualifies_eq_false_of_lt g t h
    simp only [extract_zones]
    rw [zonesLoop_all_skip _ _ _ _ _ (fun i _ => hq i)]
    rfl
  · intro hmin hex hconn harea
    have hq := qualifies_eq_isSome_of_le g t hmin
    have hu : (List.range g.cells.length).Nodup := List.nodup_range _
    have huniv : ∀ i, qualifies g t i = true →
        i ∈ List.range g.cells.length := by
      intro i hi
      rw [hq i] at hi
      exact List.mem_range.mpr (cellAt_isSome_lt g i hi)
    have hrel : (fun a b => qualifies g t b = true ∧
        adjacent g.width a b = true) =
        (fun a b => (cellAt g b).isSome = true ∧
          adjacent g.width a b = true) := by
      funext a b
      rw [hq b]
    have hconn2 : ∀ i j, qualifies g t i = true → qualifies g t j = true →
        Relation.ReflTransGen (fun a b => qualifies g t b = true ∧
          adjacent g.width a b = true) i j := by
      intro i j hi hj
      rw [hrel]
      rw [hq i] at hi
      rw [hq j] at hj
      exact hconn i j hi hj
    obtain ⟨i0, hi0⟩ := hex
    have hex2 : ∃ i ∈ List.range g.cells.length, qualifies g t i = true :=
      ⟨i0, List.mem_range.mpr (cellAt_isSome_lt g i0 hi0),
        by rw [hq i0]; exact hi0⟩
    obtain ⟨comp, hloop, hiff, hnd⟩ := zonesLoop_single (adjacent g.width)
      (qualifies g t) (List.range g.cells.length) hu huniv hconn2
      (List.range g.cells.length) hex2
    have hiff2 : ∀ x, x ∈ comp ↔ (cellAt g x).isSome = true := by
      intro x
      rw [hiff x, hq x]
    have hFnd : ((List.range g.cells.length).filter
        (fun i => (cellAt g i).isSome)).Nodup := (List.nodup_range _).filter _
    have hmemF : ∀ x, x ∈ (List.range g.cells.length).filter
        (fun i => (cellAt g i).isSome) ↔ (cellAt g x).isSome = true := by
      intro x
      rw [List.mem_filter]
      constructor
      · rintro ⟨-, hx⟩
        exact hx
      · intro hx
        exact ⟨List.mem_range.mpr (cellAt_isSome_lt g x hx), hx⟩
    have hperm : comp.Perm ((List.range g.cells.length).filter
        (fun i => (cellAt g i).isSome)) :=
      List.Subperm.antisymm
        (hnd.subperm (fun x hx => (hmemF x).mpr ((hiff2 x).mp hx)))
        (hFnd.subperm (fun x hx => (hiff2 x).mpr ((hmemF x).mp hx)))
    have harea2 : ma ≤ regionArea g comp := by
      rw [regionArea, hperm.length_eq]
      rw [regionArea] at harea
      exact harea
    refine ⟨comp, ?_, hiff2⟩
    simp only [extract_zones]
    rw [hloop]
    simp [List.filter, harea2]

/-- Witness for C5 on the 1×1 raster with the single value 5: threshold 6
extracts nothing; threshold 5 extracts one region covering the valid cell. -/
theorem C5_extract_zones_extremes_witness :
    extract_zones ⟨1, 1, 100, [some 5]⟩ 6 0 = [] ∧
    ∃ region, extract_zones ⟨1, 1, 100, [some 5]⟩ 5 0 = [region] ∧
      ∀ i, i ∈ region ↔ (cellAt ⟨1, 1, 100, [some 5]⟩ i).isSome = true := by
  constructor
  · refine (C5_extract_zones_extremes ⟨1, 1, 100, [some 5]⟩ 6 0).1 ?_
    intro i v h
    have hi : i < 1 := cellAt_isSome_lt ⟨1, 1, 100, [some 5]⟩ i (by rw [h]; rfl)
    interval_cases i
    have : v = 5 := by
      have h5 : cellAt ⟨1, 1, 100, [some 5]⟩ 0 = some 5 := rfl
      rw [h5, Option.some_inj] at h
      exact h.symm
    rw [this]
    norm_num
  · refine (C5_extract_zones_extremes ⟨1, 1, 100, [some 5]⟩ 5 0).2 ?_ ⟨0, rfl⟩ ?_ ?_
    · intro i v h
      have hi : i < 1 := cellAt_isSome_lt ⟨1, 1, 100, [some 5]⟩ i (by rw [h]; rfl)
      interval_cases i
      have h5 : cellAt ⟨1, 1, 100, [some 5]⟩ 0 = some 5 := rfl
      rw [h5, Option.some_inj] at h
      rw [← h]
    · intro i j hi hj
      have hi1 : i < 1 := cellAt_isSome_lt _ i hi
      have hj1 : j < 1 := cellAt_isSome_lt _ j hj
      have : i = j := by omega
      rw [this]
    · norm_num [regionArea]

end SolarSuit
